import Mathlib

/-!
Verification of the per-table No-Limit Hold'em hand engine.

The definitions below are a shallow embedding of the TypeScript source:
`src/poker/cards.ts` (deck operations), `src/poker/actions.ts` (betting
engine: `isRoundSettled`, `shouldAutoRunout`, `applyTableAction`),
`src/poker/runtime.ts` (`startHandIfReady`, `roundNext`) and
`src/poker/showdown.ts` (`resolveShowdown`).  Chips are modelled as `Int`
(JavaScript numbers used only integrally by the engine), JS records keyed
by seat number as lists of seats, and the `actedThisRound` record as a
function `Nat → Bool`.
-/

namespace Poker

/-! ## Cards (`cards.ts`) -/

/-- A card, e.g. "AS" — as in the source a plain string. -/
abbrev Card := String

/-- `draw(deck, n)` from `cards.ts`: `slice(0, n)` and `slice(n)`;
for `n ≤ 0` it returns no cards and a copy of the deck. -/
def draw (deck : List Card) (n : Int) : List Card × List Card :=
  if n ≤ 0 then ([], deck)
  else (deck.take n.toNat, deck.drop n.toNat)

/-! ## Runtime data model (`types.ts`) -/

inductive BettingRound | PREFLOP | FLOP | TURN | RIVER | SHOWDOWN
deriving DecidableEq, Repr

/-- Per-seat runtime state (`SeatRuntime` in `types.ts`). -/
structure SeatRuntime where
  seatNo : Nat
  userId : String
  stack : Int
  bet : Int
  committed : Int
  isAllIn : Bool
  hasFolded : Bool
  timeoutsInRow : Int
deriving DecidableEq, Repr

/-- Per-table runtime state of one hand (`TableRuntime` in `types.ts`).
`players` models `Object.values(rt.players)` (ascending seat number);
`actedThisRound` models the seat-number-keyed record. -/
structure TableRuntime where
  round : BettingRound
  dealerSeat : Nat
  currentTurnSeat : Nat
  turnEndsAt : Option Int
  deck : List Card
  board : List Card
  pendingBoard : List Card
  isDealingBoard : Bool
  autoRunout : Bool
  potTotal : Int
  currentBet : Int
  minRaise : Int
  lastAggressorSeat : Option Nat
  actedThisRound : Nat → Bool
  players : List SeatRuntime

/-! ## Betting-engine helpers (`actions.ts`) -/

/-- `contenders`: non-folded seats. -/
def contenders (rt : TableRuntime) : List SeatRuntime :=
  rt.players.filter (fun p => !p.hasFolded)

/-- `actionables`: seats that can still act (not folded, not all-in, stack > 0). -/
def actionables (rt : TableRuntime) : List SeatRuntime :=
  (contenders rt).filter (fun p => !p.isAllIn && p.stack > 0)

/-- Insertion into a sorted list of seat numbers (ascending). -/
def insertAsc (x : Nat) : List Nat → List Nat
  | [] => [x]
  | y :: ys => if x ≤ y then x :: y :: ys else y :: insertAsc x ys

/-- `.sort((a, b) => a - b)` on seat numbers. -/
def sortAsc : List Nat → List Nat
  | [] => []
  | x :: xs => insertAsc x (sortAsc xs)

def activeSeatNos (rt : TableRuntime) : List Nat :=
  sortAsc ((contenders rt).map (·.seatNo))

def actionableSeatNos (rt : TableRuntime) : List Nat :=
  sortAsc ((actionables rt).map (·.seatNo))

/-- `nextSeatFrom`: first listed seat strictly after `fromSeat`, wrapping to the
head; `fromSeat` itself when the list is empty. -/
def nextSeatFrom (list : List Nat) (fromSeat : Nat) : Nat :=
  match list with
  | [] => fromSeat
  | x :: xs =>
    match (x :: xs).find? (fun s => fromSeat < s) with
    | some s => s
    | none => x

def nextActionableSeat (rt : TableRuntime) (fromSeat : Nat) : Nat :=
  nextSeatFrom (actionableSeatNos rt) fromSeat

def onlyOneLeft (rt : TableRuntime) : Option Nat :=
  match activeSeatNos rt with
  | [s] => some s
  | _ => none

/-- `isRoundSettled` from `actions.ts` (lines 53–74). -/
def isRoundSettled (rt : TableRuntime) : Bool :=
  let act := contenders rt
  if act.length ≤ 1 then true
  else
    let actionable := actionables rt
    if actionable.length = 0 then true
    else
      let allActed := act.all
        (fun p => p.isAllIn || p.stack == 0 || rt.actedThisRound p.seatNo)
      if rt.currentBet = 0 then allActed
      else
        let allMatched := act.all
          (fun p => p.isAllIn || p.stack == 0 || p.bet == rt.currentBet)
        allMatched && allActed

/-- `shouldAutoRunout` from `actions.ts` (lines 76–89). -/
def shouldAutoRunout (rt : TableRuntime) : Bool :=
  if !isRoundSettled rt then false
  else if (contenders rt).length < 2 then false
  else if !(contenders rt).any (fun p => p.isAllIn || p.stack == 0) then false
  else (actionables rt).length ≤ 1

/-- `TURN_TIME_MS` (default 15000). -/
def TURN_TIME_MS : Int := 15000

/-- `setTurnDeadline` from `actions.ts` (lines 91–110), with the wall clock
passed in as `now`. -/
def setTurnDeadline (now : Int) (rt : TableRuntime) : TableRuntime :=
  if rt.isDealingBoard || rt.autoRunout then { rt with turnEndsAt := none }
  else if (actionables rt).length = 0 then { rt with turnEndsAt := none }
  else if (actionables rt).any (fun p => p.seatNo == rt.currentTurnSeat) then
    { rt with turnEndsAt := some (now + TURN_TIME_MS) }
  else
    { rt with currentTurnSeat := nextActionableSeat rt rt.currentTurnSeat,
              turnEndsAt := some (now + TURN_TIME_MS) }

/-- `resetBets` from `actions.ts`: zero every street bet, clear `currentBet`,
`lastAggressorSeat` and the per-street `actedThisRound` record. -/
def resetBets (rt : TableRuntime) : TableRuntime :=
  { rt with
    players := rt.players.map (fun p => { p with bet := 0 }),
    currentBet := 0,
    lastAggressorSeat := none,
    actedThisRound := fun _ => false }

/-- `roundNext` from `runtime.ts`. -/
def roundNext : BettingRound → BettingRound
  | .PREFLOP => .FLOP
  | .FLOP => .TURN
  | .TURN => .RIVER
  | _ => .SHOWDOWN

inductive PlayerAction | CHECK | CALL | RAISE | FOLD
deriving DecidableEq, Repr

inductive ActionError
  | NO_HAND_RUNNING | DEALING_BOARD | NOT_SEATED | ALREADY_FOLDED | NOT_YOUR_TURN
  | CANNOT_CHECK | INVALID_RAISE | INSUFFICIENT_STACK | RAISE_TOO_SMALL
deriving DecidableEq, Repr

/-- A JavaScript number as the engine sees the `amount` field: either a
finite numeric value (the engine only ever uses integral chips) or a
non-finite value (`NaN`, `±Infinity`). -/
inductive JNum
  | num (v : Int)
  | nonFinite
deriving DecidableEq, Repr

/-- `Number(amount ?? 0)`. -/
def jsAmount : Option JNum → JNum
  | none => .num 0
  | some a => a

/-- Replace the seat with seat number `s.seatNo` (the source mutates the
found seat object inside `rt.players`). -/
def setSeat (rt : TableRuntime) (s : SeatRuntime) : TableRuntime :=
  { rt with players := rt.players.map (fun p => if p.seatNo == s.seatNo then s else p) }

/-- `rt.actedThisRound[seatNo] = true`. -/
def markActed (rt : TableRuntime) (seatNo : Nat) : TableRuntime :=
  { rt with actedThisRound := fun k => if k == seatNo then true else rt.actedThisRound k }

/-- The tail of the RAISE branch of `applyTableAction` (lines 229–248), after
`raiseTo`/`need` are fixed (possibly clamped to all-in); `isAllInRaise`
(`need == seat.stack`) is inlined into the minimum-size check. -/
def finishRaise (rt : TableRuntime) (seat : SeatRuntime) (minTo raiseTo need : Int) :
    Except ActionError TableRuntime :=
  if raiseTo < minTo ∧ ¬(need = seat.stack) then .error .RAISE_TOO_SMALL
  else
    let seat' :=
      { seat with stack := seat.stack - need, bet := raiseTo, committed := seat.committed + need,
                  isAllIn := if seat.stack - need = 0 then true else seat.isAllIn }
    let rt := { rt with potTotal := rt.potTotal + need }
    let rt := if minTo ≤ raiseTo then { rt with minRaise := raiseTo - rt.currentBet } else rt
    let rt := { rt with currentBet := raiseTo, lastAggressorSeat := some seat.seatNo,
                        actedThisRound := fun k => k == seat.seatNo }
    .ok (setSeat rt seat')

/-- The (triplicated) `timeoutsInRow` update of `applyTableAction`
(`actions.ts` lines 173–195): three copies of the same
increment-on-timeout / reset-otherwise block, applied in sequence exactly as
in the source. -/
def timeoutsBumped (timeout : Bool) (seat : SeatRuntime) : SeatRuntime :=
  let seat := { seat with timeoutsInRow := if timeout then seat.timeoutsInRow + 1 else 0 }
  let seat := { seat with timeoutsInRow := if timeout then seat.timeoutsInRow + 1 else 0 }
  { seat with timeoutsInRow := if timeout then seat.timeoutsInRow + 1 else 0 }

/-- The per-action seat/pot mutation of `applyTableAction` (`actions.ts`
lines 197–249), after the preconditions passed, with
`toCall = max(0, currentBet − seat.bet)` inlined. -/
def applyValidated (rt : TableRuntime) (seat : SeatRuntime) :
    PlayerAction → Option JNum → Except ActionError TableRuntime
  | .FOLD, _ =>
    .ok (markActed (setSeat rt { seat with hasFolded := true }) seat.seatNo)
  | .CHECK, _ =>
    if max 0 (rt.currentBet - seat.bet) ≠ 0 then .error .CANNOT_CHECK
    else .ok (markActed (setSeat rt seat) seat.seatNo)
  | .CALL, _ =>
    let pay := min (max 0 (rt.currentBet - seat.bet)) seat.stack
    let seat :=
      { seat with stack := seat.stack - pay, bet := seat.bet + pay,
                  committed := seat.committed + pay }
    let seat := if seat.stack = 0 then { seat with isAllIn := true } else seat
    let rt := { rt with potTotal := rt.potTotal + pay }
    .ok (markActed (setSeat rt seat) seat.seatNo)
  | .RAISE, amount =>
    match jsAmount amount with
    | .nonFinite => .error .INVALID_RAISE
    | .num r0 =>
      if r0 ≤ rt.currentBet then .error .INVALID_RAISE
      else if r0 - seat.bet ≤ 0 then .error .INVALID_RAISE
      else if seat.stack < r0 - seat.bet then
        if seat.bet + seat.stack ≤ rt.currentBet then .error .INSUFFICIENT_STACK
        else
          finishRaise rt seat
            (if rt.currentBet = 0 then rt.minRaise else rt.currentBet + rt.minRaise)
            (seat.bet + seat.stack) seat.stack
      else
        finishRaise rt seat
          (if rt.currentBet = 0 then rt.minRaise else rt.currentBet + rt.minRaise)
          r0 (r0 - seat.bet)

/-- The validation and state-mutation phase of `applyTableAction`
(`actions.ts` lines 160–249): precondition checks, the (triplicated)
`timeoutsInRow` update, and the per-action seat/pot mutation. -/
def applyMutation (rt : TableRuntime) (userId : String) (action : PlayerAction)
    (amount : Option JNum) (timeout : Bool) : Except ActionError TableRuntime :=
  if rt.isDealingBoard then .error .DEALING_BOARD
  else
    match rt.players.find? (fun p => p.userId == userId) with
    | none => .error .NOT_SEATED
    | some seat =>
      if seat.hasFolded then .error .ALREADY_FOLDED
      else if rt.currentTurnSeat ≠ seat.seatNo then .error .NOT_YOUR_TURN
      else applyValidated rt (timeoutsBumped timeout seat) action amount

/-- Sum over all seats of `Math.max(0, Math.floor(p.committed))` — the
`pot.total` recomputation at showdown entry. -/
def totalContrib (players : List SeatRuntime) : Int :=
  (players.map (fun p => max 0 p.committed)).sum

/-- Pay the whole pot to the winner-by-fold seat. -/
def payWinner (rt : TableRuntime) (w : Nat) : TableRuntime :=
  { rt with players :=
      rt.players.map (fun p => if p.seatNo == w then { p with stack := p.stack + rt.potTotal } else p) }

/-- Result of the post-action phase of `applyTableAction`: winner by fold,
entry into showdown resolution (with the recomputed pot), or the hand
continuing with an updated runtime. -/
inductive ApplyOutcome
  | foldWin (winnerSeat : Nat) (rt : TableRuntime)
  | showdownEntry (rt : TableRuntime)
  | nextTurn (rt : TableRuntime)

/-- The settled-round street advance of `applyTableAction` for a non-showdown
next round (`actions.ts` lines 262–302): reset the street bets, draw the
pending board cards, recompute `autoRunout` from `shouldAutoRunout`, and move
the turn to the first actionable seat after the dealer. -/
def advanceStreetCore (rt0 : TableRuntime) (nxt : BettingRound) : TableRuntime :=
  let rt := resetBets { rt0 with round := nxt }
  let rt :=
    if nxt = .FLOP ∨ nxt = .TURN ∨ nxt = .RIVER then
      let d := draw rt.deck (if nxt = .FLOP then 3 else 1)
      { rt with deck := d.2, pendingBoard := d.1, isDealingBoard := true }
    else rt
  let rt := { rt with autoRunout := shouldAutoRunout rt }
  { rt with currentTurnSeat := nextActionableSeat rt rt.dealerSeat }

/-- The runtime entering showdown resolution: round advanced, street bets
reset, and `pot.total` recomputed as `Σ max(0, ⌊committed⌋)`. -/
def showdownEntryRuntime (rt0 : TableRuntime) : TableRuntime :=
  let rt := resetBets { rt0 with round := roundNext rt0.round }
  { rt with potTotal := totalContrib rt.players }

/-- The post-action phase of `applyTableAction` (`actions.ts` lines 251–313):
winner-by-fold, street advancement on a settled round, or plain turn
advancement. -/
def applyPost (now : Int) (rt0 : TableRuntime) : ApplyOutcome :=
  match onlyOneLeft rt0 with
  | some w => .foldWin w (payWinner rt0 w)
  | none =>
    if isRoundSettled rt0 then
      if roundNext rt0.round = .SHOWDOWN then
        .showdownEntry (showdownEntryRuntime rt0)
      else
        .nextTurn (setTurnDeadline now (advanceStreetCore rt0 (roundNext rt0.round)))
    else
      .nextTurn (setTurnDeadline now
        { rt0 with currentTurnSeat := nextActionableSeat rt0 rt0.currentTurnSeat })

/-- The full (pure core of) `applyTableAction`: the validation/mutation phase
followed by the post-action phase. -/
def applyTableAction (now : Int) (rt : TableRuntime) (userId : String)
    (action : PlayerAction) (amount : Option JNum) (timeout : Bool) :
    Except ActionError ApplyOutcome :=
  (applyMutation rt userId action amount timeout).map (applyPost now)

/-- The runtime carried by an `ApplyOutcome`. -/
def outcomeRuntime : ApplyOutcome → Option TableRuntime
  | .foldWin _ rt => some rt
  | .showdownEntry rt => some rt
  | .nextTurn rt => some rt

/-- The runtime of a `.nextTurn` outcome of `applyPost`. -/
def postedRuntime (now : Int) (rt : TableRuntime) : Option TableRuntime :=
  match applyPost now rt with
  | .nextTurn rt' => some rt'
  | _ => none

/-! ## Hand start (`runtime.ts`, `startHandIfReady`) -/

/-- `nextOccupied` from `runtime.ts`: sort ascending, first seat strictly
after `fromSeat`, wrapping to the lowest. -/
def nextOccupied (seatNos : List Nat) (fromSeat : Nat) : Nat :=
  nextSeatFrom (sortAsc seatNos) fromSeat

/-- A seated player as read from the seats table. -/
structure SeatInput where
  seatNo : Nat
  userId : String
  stack : Int
deriving DecidableEq, Repr

/-- One blind posting as written in `runtime.ts` lines 109–114 / 116–121:
note the duplicated `committed += amt` / all-in check, exactly as in the
source. -/
def postBlind (amt : Int) (p : SeatRuntime) : SeatRuntime :=
  let p := { p with stack := p.stack - amt, bet := p.bet + amt, committed := p.committed + amt }
  let p := if p.stack = 0 then { p with isAllIn := true } else p
  let p := { p with committed := p.committed + amt }
  if p.stack = 0 then { p with isAllIn := true } else p

def stackOf (players : List SeatRuntime) (s : Nat) : Int :=
  ((players.find? (fun p => p.seatNo == s)).map (·.stack)).getD 0

/-- The pure core of `startHandIfReady` (`runtime.ts` lines 59–143): derive
dealer, blinds and first actor from the seated players and the persisted
dealer pointer, post the (stack-clamped) blinds, and build the initial
`TableRuntime`.  The already-shuffled remaining deck is passed in. -/
def startHandRuntime (seated : List SeatInput) (prevDealer : Option Nat)
    (smallBlind bigBlind : Int) (deck : List Card) : Option TableRuntime :=
  if seated.length < 2 then none
  else
    let seatNos := seated.map (·.seatNo)
    let fallbackDealer := match sortAsc seatNos with | [] => 0 | x :: _ => x
    let dealerSeat := match prevDealer with
      | some d => nextOccupied seatNos d
      | none => fallbackDealer
    let isHeadsUp := seatNos.length = 2
    let sbSeat := if isHeadsUp then dealerSeat else nextOccupied seatNos dealerSeat
    let bbSeat :=
      if isHeadsUp then nextOccupied seatNos dealerSeat else nextOccupied seatNos sbSeat
    let players0 := seated.map (fun s =>
      { seatNo := s.seatNo, userId := s.userId, stack := s.stack, bet := 0, committed := 0,
        isAllIn := false, hasFolded := false, timeoutsInRow := 0 : SeatRuntime })
    let sb := min smallBlind (stackOf players0 sbSeat)
    let bb := min bigBlind (stackOf players0 bbSeat)
    let players1 := players0.map (fun p => if p.seatNo == sbSeat then postBlind sb p else p)
    let players2 := players1.map (fun p => if p.seatNo == bbSeat then postBlind bb p else p)
    let currentTurnSeat := if isHeadsUp then sbSeat else nextOccupied seatNos bbSeat
    some
      { round := .PREFLOP, dealerSeat := dealerSeat, currentTurnSeat := currentTurnSeat,
        turnEndsAt := none, deck := deck, board := [], pendingBoard := [],
        isDealingBoard := false, autoRunout := false, potTotal := sb + bb,
        currentBet := bb, minRaise := bigBlind, lastAggressorSeat := some bbSeat,
        actedThisRound := fun _ => false, players := players2 }

/-! ## Showdown (`showdown.ts`, `resolveShowdown`)

The hand evaluator is the external `poker-evaluator` library; it enters the
embedding as the abstract seat-value function `value : Nat → Int` (the
`valueBySeat` map, defined for every non-folded seat). -/

/-- `Math.max(0, Math.floor(p.committed ?? 0))` — a seat's pot contribution. -/
def contribOf (p : SeatRuntime) : Int := max 0 p.committed

/-- Insertion into an ascending list of `Int`. -/
def insertIntAsc (x : Int) : List Int → List Int
  | [] => [x]
  | y :: ys => if x ≤ y then x :: y :: ys else y :: insertIntAsc x ys

/-- `.sort((a, b) => a - b)` on contribution levels. -/
def sortInt : List Int → List Int
  | [] => []
  | x :: xs => insertIntAsc x (sortInt xs)

/-- The contribution levels: the sorted distinct positive `committed` values
across all seats (`showdown.ts` line 69). -/
def showdownLevels (players : List SeatRuntime) : List Int :=
  sortInt (((players.map contribOf).filter (fun v => 0 < v)).dedup)

structure Pot where
  amount : Int
  eligibleSeats : List Nat
deriving DecidableEq, Repr

/-- One seat's share of the side-pot walk: for each level `l ≤ c` it
contributes `l − prev` to that level's pot.  Used to telescope the pot
amounts back to the per-seat contributions. -/
def stepSum (c : Int) : Int → List Int → Int
  | _, [] => 0
  | prev, l :: ls => (if l ≤ c then l - prev else 0) + stepSum c l ls

/-- The side-pot construction loop (`showdown.ts` lines 70–79): walk the
levels keeping the previous level, one pot per level, pots of non-positive
amount dropped. -/
def buildPots (all : List SeatRuntime) : Int → List Int → List Pot
  | _, [] => []
  | prev, lvl :: rest =>
    let participants := all.filter (fun p => lvl ≤ contribOf p)
    let amount := (lvl - prev) * (participants.length : Int)
    let eligibleSeats := (participants.filter (fun p => !p.hasFolded)).map (·.seatNo)
    (if 0 < amount then [Pot.mk amount eligibleSeats] else []) ++ buildPots all lvl rest

def showdownPots (players : List SeatRuntime) : List Pot :=
  buildPots players 0 (showdownLevels players)

/-- The seats with a hand value at showdown: the non-folded seats (the keys
of `valueBySeat`). -/
def activeSeatList (players : List SeatRuntime) : List Nat :=
  (players.filter (fun p => !p.hasFolded)).map (·.seatNo)

/-- The comparator key of `sortByLeftOfDealer` (`showdown.ts` lines 89–97):
clockwise distance from the dealer with the hard-coded wrap constant `100`. -/
def distFromDealer (dealerSeat a : Nat) : Int :=
  if dealerSeat < a then (a : Int) - dealerSeat else (a : Int) + 100 - dealerSeat

/-- Modelled from the spec: the same clockwise distance but with the wrap
computed from the table size `n`, as §4.5's odd-chip rule describes it —
present only to compare against the source's `distFromDealer`, which the
code of `sortByLeftOfDealer` actually uses. -/
def distFromDealerBySize (n : Nat) (dealerSeat a : Nat) : Int :=
  if dealerSeat < a then (a : Int) - dealerSeat else (a : Int) + n - dealerSeat

def insertByDist (dealer : Nat) (x : Nat) : List Nat → List Nat
  | [] => [x]
  | y :: ys =>
    if distFromDealer dealer x ≤ distFromDealer dealer y then x :: y :: ys
    else y :: insertByDist dealer x ys

/-- `sortByLeftOfDealer`: sort seats by clockwise distance from the dealer
(the comparator uses `distFromDealer`). -/
def sortByLeftOfDealer (dealer : Nat) : List Nat → List Nat
  | [] => []
  | x :: xs => insertByDist dealer x (sortByLeftOfDealer dealer xs)

/-- The running best over the `for (const s of elig)` maximum loop
(`showdown.ts` lines 103–107). -/
def bestFrom (value : Nat → Int) : Int → List Nat → Int
  | best, [] => best
  | best, s :: ss => bestFrom value (if best < value s then value s else best) ss

/-- The loop's result starting from `-Infinity`: `none` on an empty list. -/
def bestValue (value : Nat → Int) : List Nat → Option Int
  | [] => none
  | s :: ss => some (bestFrom value (value s) ss)

/-- The payout loop over one pot's winners (`showdown.ts` lines 113–117):
`base` each plus one odd chip while `rem > 0`. -/
def distribute (base : Int) : Int → List Nat → List (Nat × Int)
  | _, [] => []
  | rem, s :: ss =>
    (s, base + (if 0 < rem then 1 else 0)) ::
      distribute base (if 0 < rem then rem - 1 else rem) ss

/-- One pot's payouts (`showdown.ts` lines 99–118): the eligible seats with a
hand value, the best value among them, the tied winners sorted left of the
dealer, and the odd-chip split. -/
def potPayout (dealer : Nat) (value : Nat → Int) (activeSeats : List Nat) (pot : Pot) :
    List (Nat × Int) :=
  let elig := pot.eligibleSeats.filter (fun s => activeSeats.contains s)
  match bestValue value elig with
  | none => []
  | some best =>
    let winnersSeats := sortByLeftOfDealer dealer (elig.filter (fun s => value s == best))
    let base := pot.amount / (winnersSeats.length : Int)
    let rem := pot.amount - base * (winnersSeats.length : Int)
    distribute base rem winnersSeats

/-- All `(seat, chips)` contributions accumulated into the `payouts` map. -/
def showdownEntries (dealer : Nat) (value : Nat → Int) (players : List SeatRuntime) :
    List (Nat × Int) :=
  (showdownPots players).flatMap (potPayout dealer value (activeSeatList players))

/-- A seat's accumulated payout (the final value in the `payouts` map). -/
def payoutOf (entries : List (Nat × Int)) (s : Nat) : Int :=
  ((entries.filter (fun e => e.1 == s)).map (·.2)).sum

/-- The `winners` output: the seats whose accumulated payout is positive,
with their payouts. -/
def showdownWinners (dealer : Nat) (value : Nat → Int) (players : List SeatRuntime) :
    List (Nat × Int) :=
  let entries := showdownEntries dealer value players
  ((players.map (·.seatNo)).filter (fun s => 0 < payoutOf entries s)).map
    (fun s => (s, payoutOf entries s))

/-! ## Concrete runtimes used by witnesses and counterexamples -/

/-- Scenario S5: three all-in players with committed 100/200/200; seats 2
and 3 tie for the best hand. -/
def playersC2 : List SeatRuntime :=
  [⟨1, "u1", 0, 0, 100, true, false, 0⟩, ⟨2, "u2", 0, 0, 200, true, false, 0⟩,
   ⟨3, "u3", 0, 0, 200, true, false, 0⟩]

/-- An empty default runtime (used only to name computed runtimes). -/
def rtEmpty : TableRuntime :=
  { round := .PREFLOP, dealerSeat := 0, currentTurnSeat := 0, turnEndsAt := none,
    deck := [], board := [], pendingBoard := [], isDealingBoard := false,
    autoRunout := false, potTotal := 0, currentBet := 0, minRaise := 0,
    lastAggressorSeat := none, actedThisRound := fun _ => false, players := [] }

def forceRuntime (o : Option TableRuntime) : TableRuntime := o.getD rtEmpty

/-- Two seats of 1000 chips each, the first hand of a 5/10 table. -/
def seatedC1 : List SeatInput := [⟨1, "u1", 1000⟩, ⟨2, "u2", 1000⟩]

/-- A flop with no outstanding bet, seat 1 to act, seat 1 already at two
consecutive timeouts. -/
def rtC7 : TableRuntime :=
  { round := .FLOP, dealerSeat := 1, currentTurnSeat := 1, turnEndsAt := none,
    deck := ["2S", "3S", "4S", "5S"], board := ["7H", "8H", "9H"], pendingBoard := [],
    isDealingBoard := false, autoRunout := false, potTotal := 20, currentBet := 0,
    minRaise := 10, lastAggressorSeat := none, actedThisRound := fun _ => false,
    players := [⟨1, "u1", 990, 0, 10, false, false, 2⟩, ⟨2, "u2", 990, 0, 10, false, false, 0⟩] }

/-- A flop where seat 2 has bet 30 (and acted); seat 1, with a 40-chip stack
and the turn, is about to move all-in short of the 50-chip minimum raise. -/
def rtC4 : TableRuntime :=
  { round := .FLOP, dealerSeat := 1, currentTurnSeat := 1, turnEndsAt := none,
    deck := ["2S", "3S", "4S", "5S"], board := ["7H", "8H", "9H"], pendingBoard := [],
    isDealingBoard := false, autoRunout := false, potTotal := 50, currentBet := 30,
    minRaise := 20, lastAggressorSeat := some 2, actedThisRound := fun k => k == 2,
    players := [⟨1, "u1", 40, 0, 10, false, false, 0⟩, ⟨2, "u2", 960, 30, 40, false, false, 0⟩] }

/-- A flop where both remaining players are all-in for 100: the next
street advance enters auto-runout. -/
def rtC6 : TableRuntime :=
  { round := .FLOP, dealerSeat := 1, currentTurnSeat := 2, turnEndsAt := none,
    deck := ["2S", "3S"], board := ["7H", "8H", "9H"], pendingBoard := [],
    isDealingBoard := false, autoRunout := false, potTotal := 200, currentBet := 100,
    minRaise := 100, lastAggressorSeat := some 1, actedThisRound := fun k => k == 1,
    players := [⟨1, "u1", 0, 100, 100, true, false, 0⟩, ⟨2, "u2", 0, 100, 100, true, false, 0⟩] }

/-- The runtime after the street advance from `rtC6`. -/
def rtC6' : TableRuntime := forceRuntime (postedRuntime 0 rtC6)

/-- The runtime after the short all-in raise from `rtC4`. -/
def rtC4' : TableRuntime :=
  forceRuntime (applyMutation rtC4 "u1" .RAISE (some (.num 45)) false).toOption

/-- The runtime produced by starting a hand from `seatedC1`. -/
def rtC5s : TableRuntime := forceRuntime (startHandRuntime seatedC1 none 5 10 [])

/-- A settled heads-up preflop (both called and acted), about to advance to
the flop. -/
def rtC5b : TableRuntime :=
  { round := .PREFLOP, dealerSeat := 1, currentTurnSeat := 2, turnEndsAt := none,
    deck := ["2S", "3S", "4S", "5S"], board := [], pendingBoard := [],
    isDealingBoard := false, autoRunout := false, potTotal := 20, currentBet := 10,
    minRaise := 10, lastAggressorSeat := some 2, actedThisRound := fun _ => true,
    players := [⟨1, "u1", 990, 10, 10, false, false, 0⟩, ⟨2, "u2", 990, 10, 10, false, false, 0⟩] }

/-- The runtime after the street advance from `rtC5b`. -/
def rtC5f : TableRuntime := forceRuntime (postedRuntime 0 rtC5b)

/-- A heads-up preflop: dealer/SB is seat 1 (already called), BB seat 2 is
about to check, which settles the round and deals the flop. -/
def rtC5 : TableRuntime :=
  { round := .PREFLOP, dealerSeat := 1, currentTurnSeat := 2, turnEndsAt := none,
    deck := ["2S", "3S", "4S", "5S"], board := [], pendingBoard := [],
    isDealingBoard := false, autoRunout := false, potTotal := 20, currentBet := 10,
    minRaise := 10, lastAggressorSeat := some 2, actedThisRound := fun k => k == 1,
    players := [⟨1, "u1", 990, 10, 10, false, false, 0⟩, ⟨2, "u2", 990, 10, 10, false, false, 0⟩] }

end Poker

namespace Poker

/-! ## Claim C10 — `draw` returns a take/drop split and never mutates. -/

/-- C10: for every deck and every `n`, `draw` splits the deck into its first
`n` cards and the remainder: `drawn ++ rest` is the input deck (for any `n`,
in particular whenever `0 ≤ n ≤ |deck|`), and in range `drawn` is exactly the
first `n` cards and `rest` the rest.  The embedding is a pure function of the
input deck, matching the source's use of the non-mutating `slice`. -/
theorem draw_spec (deck : List Card) (n : Int) :
    (draw deck n).1 ++ (draw deck n).2 = deck ∧
    (0 ≤ n → n ≤ deck.length →
      (draw deck n).1 = deck.take n.toNat ∧ (draw deck n).2 = deck.drop n.toNat ∧
      ((draw deck n).1.length : Int) = n) := by
  constructor
  · unfold draw
    split
    · simp
    · simp [List.take_append_drop]
  · intro h0 hlen
    unfold draw
    rcases lt_or_eq_of_le h0 with hpos | hzero
    · rw [if_neg (by omega)]
      refine ⟨rfl, rfl, ?_⟩
      simp only [List.length_take]
      omega
    · rw [← hzero]
      simp

/-- Witness for C10 at a concrete deck and `n = 2`. -/
theorem draw_spec_witness :
    (draw ["AS", "KD", "7H"] 2).1 ++ (draw ["AS", "KD", "7H"] 2).2
        = ["AS", "KD", "7H"] ∧
    (draw ["AS", "KD", "7H"] 2).1 = ["AS", "KD"] := by
  have h := draw_spec ["AS", "KD", "7H"] 2
  exact ⟨h.1, by have := (h.2 (by decide) (by decide)).1; simpa using this⟩

/-! ## Claim C1 — `pot.total = Σ committed` is broken at hand start. -/

/-- C1: evaluating `startHandIfReady`'s blind posting on its failing input —
a fresh 5/10 heads-up hand, both stacks 1000 — leaves `pot.total = 15` while
the seats' `committed` sum to `30`: the duplicated `committed += sb` /
`committed += bb` lines double-count the blinds, so the invariant
`pot.total = Σ players.committed` already fails on the state the hand starts
from. -/
theorem startHand_pot_committed_mismatch :
    ((startHandRuntime seatedC1 none 5 10 []).map (fun rt => rt.potTotal)) = some 15 ∧
    ((startHandRuntime seatedC1 none 5 10 []).map
        (fun rt => (rt.players.map (fun p => p.committed)).sum)) = some 30 ∧
    (15 : Int) ≠ 30 :=
  ⟨rfl, rfl, by decide⟩

/-! ## Claim C7 — `timeoutsInRow` is incremented three times per timeout. -/

/-- C7: evaluating `applyTableAction` at the failing input — seat 1 checks on
a timeout with `timeoutsInRow = 2` — the three copies of the increment block
in `actions.ts` (lines 176–195) raise the counter to `5`, not `3`; a
non-timeout action still resets it to `0`. -/
theorem timeout_counter_triple_increment :
    ((applyTableAction 0 rtC7 "u1" .CHECK none true).toOption.bind outcomeRuntime).map
        (fun rt => rt.players.map (fun p => p.timeoutsInRow)) = some [5, 0] ∧
    ((applyTableAction 0 rtC7 "u1" .CHECK none false).toOption.bind outcomeRuntime).map
        (fun rt => rt.players.map (fun p => p.timeoutsInRow)) = some [0, 0] :=
  ⟨rfl, rfl⟩

/-! ## Claim C4 — a short all-in raise still clears `actedThisRound`. -/

/-- Counterexample to C4: seat 2 has acted this street (`actedThisRound 2 =
true`, having bet 30 with `minRaise = 20`, so the full-raise target is 50);
seat 1 raises all-in short, to 40.  The raise is applied (`currentBet` becomes
40; `minRaise` stays 20, so the engine itself classifies it as short), yet
seat 2's `actedThisRound` flag is cleared to `false` — `actions.ts` clears the
flags on **every** raise, short all-ins included. -/
theorem short_all_in_clears_acted_cex :
    rtC4.actedThisRound 2 = true ∧
    ((applyTableAction 0 rtC4 "u1" .RAISE (some (.num 45)) false).toOption.bind
        outcomeRuntime).map
        (fun rt => (rt.currentBet, rt.minRaise, rt.actedThisRound 2))
      = some (40, 20, false) :=
  ⟨rfl, rfl⟩

/-! ## Claim C5 — heads-up postflop order. -/

/-- Counterexample to C5: a heads-up hand with dealer/SB seat 1; the BB
(seat 2) checks behind, the preflop round settles and the flop is dealt —
and the first seat to act on the flop is seat 2 (the BB), not the SB seat 1:
postflop the engine starts from the next actionable seat **after** the
dealer. -/
theorem headsUp_postflop_first_actor_cex :
    rtC5.dealerSeat = 1 ∧
    ((applyTableAction 0 rtC5 "u2" .CHECK none false).toOption.bind outcomeRuntime).map
        (fun rt => (rt.round, rt.dealerSeat, rt.currentTurnSeat))
      = some (.FLOP, 1, 2) ∧
    (2 : Nat) ≠ 1 :=
  ⟨rfl, rfl, by decide⟩

/-! ## Claim C3 — the settled-round predicate. -/

/-- No seat can still act iff every contender is all-in or out of chips. -/
theorem actionables_length_zero_iff (rt : TableRuntime) :
    (actionables rt).length = 0 ↔
      ∀ p ∈ contenders rt, ¬(p.isAllIn = false ∧ 0 < p.stack) := by
  rw [List.length_eq_zero]
  simp [actionables, List.filter_eq_nil_iff, Bool.and_eq_true, not_and, decide_eq_true_eq]

/-- C3: `isRoundSettled` holds exactly when at most one contender remains, or
no contender can still act, or — with `allActed` meaning every contender is
all-in, has stack 0, or has `actedThisRound` — `allActed` holds when
`currentBet = 0`, and `allActed` together with every contender matching
`currentBet` (or being all-in / stack 0) when `currentBet ≠ 0`.  In
particular, on a street with `currentBet = 0` the first CHECK does not settle
the round while another contender with chips has not acted. -/
theorem isRoundSettled_spec (rt : TableRuntime) :
    isRoundSettled rt = true ↔
      ((contenders rt).length ≤ 1 ∨
       (∀ p ∈ contenders rt, ¬(p.isAllIn = false ∧ 0 < p.stack)) ∨
       (rt.currentBet = 0 ∧
          (∀ p ∈ contenders rt,
            p.isAllIn = true ∨ p.stack = 0 ∨ rt.actedThisRound p.seatNo = true)) ∨
       (rt.currentBet ≠ 0 ∧
          (∀ p ∈ contenders rt,
            p.isAllIn = true ∨ p.stack = 0 ∨ rt.actedThisRound p.seatNo = true) ∧
          (∀ p ∈ contenders rt,
            p.isAllIn = true ∨ p.stack = 0 ∨ p.bet = rt.currentBet))) := by
  simp only [isRoundSettled]
  by_cases h1 : (contenders rt).length ≤ 1
  · simp [h1]
  · rw [if_neg h1]
    by_cases h2 : (actionables rt).length = 0
    · rw [if_pos h2]
      simp only [true_iff]
      exact Or.inr (Or.inl ((actionables_length_zero_iff rt).1 h2))
    · rw [if_neg h2]
      have hno2 : ¬ ∀ p ∈ contenders rt, ¬(p.isAllIn = false ∧ 0 < p.stack) :=
        fun h => h2 ((actionables_length_zero_iff rt).2 h)
      by_cases h3 : rt.currentBet = 0
      · rw [if_pos h3]
        simp only [List.all_eq_true, Bool.or_eq_true, beq_iff_eq, or_assoc]
        constructor
        · intro h
          exact Or.inr (Or.inr (Or.inl ⟨h3, h⟩))
        · rintro (h | h | ⟨-, h⟩ | ⟨hne, -, -⟩)
          · exact absurd h h1
          · exact absurd h hno2
          · exact h
          · exact absurd h3 hne
      · rw [if_neg h3]
        simp only [Bool.and_eq_true, List.all_eq_true, Bool.or_eq_true, beq_iff_eq,
          or_assoc]
        constructor
        · rintro ⟨hm, ha⟩
          exact Or.inr (Or.inr (Or.inr ⟨h3, ha, hm⟩))
        · rintro (h | h | ⟨h0, -⟩ | ⟨-, ha, hm⟩)
          · exact absurd h h1
          · exact absurd h hno2
          · exact absurd h0 h3
          · exact ⟨hm, ha⟩

/-! ## Claim C6 — auto-runout is gated by the settled round. -/

/-- `setTurnDeadline` only touches `turnEndsAt` and `currentTurnSeat`. -/
theorem setTurnDeadline_fields (now : Int) (rt : TableRuntime) :
    (setTurnDeadline now rt).players = rt.players ∧
    (setTurnDeadline now rt).currentBet = rt.currentBet ∧
    (setTurnDeadline now rt).actedThisRound = rt.actedThisRound ∧
    (setTurnDeadline now rt).autoRunout = rt.autoRunout := by
  unfold setTurnDeadline
  split
  · exact ⟨rfl, rfl, rfl, rfl⟩
  split
  · exact ⟨rfl, rfl, rfl, rfl⟩
  split
  · exact ⟨rfl, rfl, rfl, rfl⟩
  · exact ⟨rfl, rfl, rfl, rfl⟩

theorem contenders_congr {rt₁ rt₂ : TableRuntime} (hp : rt₁.players = rt₂.players) :
    contenders rt₁ = contenders rt₂ := by
  simp only [contenders, hp]

theorem actionables_congr {rt₁ rt₂ : TableRuntime} (hp : rt₁.players = rt₂.players) :
    actionables rt₁ = actionables rt₂ := by
  simp only [actionables, contenders, hp]

/-- `isRoundSettled` reads only `players`, `currentBet` and `actedThisRound`. -/
theorem isRoundSettled_congr {rt₁ rt₂ : TableRuntime} (hp : rt₁.players = rt₂.players)
    (hb : rt₁.currentBet = rt₂.currentBet)
    (ha : rt₁.actedThisRound = rt₂.actedThisRound) :
    isRoundSettled rt₁ = isRoundSettled rt₂ := by
  simp only [isRoundSettled, contenders, actionables, hp, hb, ha]

theorem shouldAutoRunout_congr {rt₁ rt₂ : TableRuntime} (hp : rt₁.players = rt₂.players)
    (hb : rt₁.currentBet = rt₂.currentBet)
    (ha : rt₁.actedThisRound = rt₂.actedThisRound) :
    shouldAutoRunout rt₁ = shouldAutoRunout rt₂ := by
  have hs := isRoundSettled_congr hp hb ha
  simp only [shouldAutoRunout, contenders, actionables, hp, hs]

theorem nextActionableSeat_congr {rt₁ rt₂ : TableRuntime}
    (hp : rt₁.players = rt₂.players) (s : Nat) :
    nextActionableSeat rt₁ s = nextActionableSeat rt₂ s := by
  simp only [nextActionableSeat, actionableSeatNos, actionables, contenders, hp]

/-- The street advance stores exactly `shouldAutoRunout` of its own result in
`autoRunout`. -/
theorem advanceStreetCore_autoRunout (rt0 : TableRuntime) (nxt : BettingRound) :
    (advanceStreetCore rt0 nxt).autoRunout = shouldAutoRunout (advanceStreetCore rt0 nxt) := by
  unfold advanceStreetCore
  split
  · exact shouldAutoRunout_congr rfl rfl rfl
  · exact shouldAutoRunout_congr rfl rfl rfl

/-- `shouldAutoRunout` holds exactly when the round is settled, at least two
contenders remain, one of them is all-in (or has stack 0), and at most one
seat can still act. -/
theorem shouldAutoRunout_iff (rt : TableRuntime) :
    shouldAutoRunout rt = true ↔
      (isRoundSettled rt = true ∧ 2 ≤ (contenders rt).length ∧
       (∃ p ∈ contenders rt, p.isAllIn = true ∨ p.stack = 0) ∧
       (actionables rt).length ≤ 1) := by
  constructor
  · intro h
    unfold shouldAutoRunout at h
    split at h
    · simp at h
    split at h
    · simp at h
    split at h
    · simp at h
    rename_i h1 h2 h3
    refine ⟨by simpa using h1, by simpa using h2, ?_, by simpa using h⟩
    have h3' : (contenders rt).any (fun p => p.isAllIn || p.stack == 0) = true := by
      revert h3
      cases (contenders rt).any (fun p => p.isAllIn || p.stack == 0) <;> simp
    rw [List.any_eq_true] at h3'
    obtain ⟨p, hp, hor⟩ := h3'
    refine ⟨p, hp, ?_⟩
    rw [Bool.or_eq_true] at hor
    rcases hor with h' | h'
    · exact Or.inl h'
    · exact Or.inr (by simpa using h')
  · rintro ⟨hs, hlen, ⟨p, hp, hor⟩, hact⟩
    have hany : (contenders rt).any (fun p => p.isAllIn || p.stack == 0) = true := by
      rw [List.any_eq_true]
      exact ⟨p, hp, by rcases hor with h | h <;> simp [h]⟩
    have hlt : ¬((contenders rt).length < 2) := by omega
    simp [shouldAutoRunout, hs, hany, hlt, hact]

/-- C6: whenever the post-action phase of `applyTableAction` advances the
hand and the resulting runtime has `autoRunout` switched on (it was off
before), the resulting round is settled, at least two contenders remain, at
least one of them is all-in or out of chips, and at most one contender can
still act — the engine never auto-deals a street while a non-all-in
contender still has a pending decision. -/
theorem autoRunout_only_when_settled (now : Int) (rt rt' : TableRuntime)
    (h : applyPost now rt = .nextTurn rt')
    (h0 : rt.autoRunout = false) (hset : rt'.autoRunout = true) :
    isRoundSettled rt' = true ∧ 2 ≤ (contenders rt').length ∧
    (∃ p ∈ contenders rt', p.isAllIn = true ∨ p.stack = 0) ∧
    (actionables rt').length ≤ 1 := by
  unfold applyPost at h
  split at h
  · simp at h
  split at h
  · -- settled round
    split at h
    · simp at h
    · -- street advance
      rw [ApplyOutcome.nextTurn.injEq] at h
      subst h
      obtain ⟨hp, hb, ha, hauto⟩ :=
        setTurnDeadline_fields now (advanceStreetCore rt (roundNext rt.round))
      rw [hauto, advanceStreetCore_autoRunout] at hset
      rw [shouldAutoRunout_iff] at hset
      obtain ⟨c1, c2, c3, c4⟩ := hset
      refine ⟨?_, ?_, ?_, ?_⟩
      · rw [isRoundSettled_congr hp hb ha]; exact c1
      · rw [contenders_congr hp]; exact c2
      · rw [contenders_congr hp]; exact c3
      · rw [actionables_congr hp]; exact c4
  · -- unsettled round: `autoRunout` is untouched, contradicting `hset`
    rw [ApplyOutcome.nextTurn.injEq] at h
    subst h
    obtain ⟨-, -, -, hauto⟩ := setTurnDeadline_fields now
      { rt with currentTurnSeat := nextActionableSeat rt rt.currentTurnSeat }
    rw [hauto] at hset
    exact absurd hset (by simp [h0])

/-- Witness for C6: both players all-in on the flop; the advance to the turn
sets `autoRunout`, and the guard conditions hold of the new runtime. -/
theorem autoRunout_only_when_settled_witness :
    isRoundSettled rtC6' = true ∧ 2 ≤ (contenders rtC6').length ∧
    (∃ p ∈ contenders rtC6', p.isAllIn = true ∨ p.stack = 0) ∧
    (actionables rtC6').length ≤ 1 :=
  autoRunout_only_when_settled 0 rtC6 rtC6' rfl rfl rfl

/-! ### C4 amended: every applied raise (full or short all-in) clears
`actedThisRound` for the other seats; only `minRaise` is conditional. -/

/-- Shape of a successful `finishRaise`: the raiser alone is marked acted,
`currentBet` becomes `raiseTo`, and `minRaise` is updated to
`raiseTo − currentBet` exactly when the raise reaches the full-raise
target. -/
theorem finishRaise_shape (rt : TableRuntime) (seat : SeatRuntime)
    (minTo raiseTo need : Int) (rt' : TableRuntime)
    (h : finishRaise rt seat minTo raiseTo need = .ok rt') :
    (∀ s : Nat, rt'.actedThisRound s = (s == seat.seatNo)) ∧
    rt'.currentBet = raiseTo ∧
    (minTo ≤ raiseTo → rt'.minRaise = raiseTo - rt.currentBet) ∧
    (raiseTo < minTo → rt'.minRaise = rt.minRaise) := by
  unfold finishRaise at h
  split at h
  · simp at h
  rw [Except.ok.injEq] at h
  subst h
  refine ⟨fun s => rfl, rfl, fun hle => ?_, fun hlt => ?_⟩
  · split
    · rfl
    · rename_i hgt; exact absurd hle hgt
  · split
    · rename_i hc; exact absurd hc (not_le.mpr hlt)
    · rfl

/-- A successful RAISE through `applyValidated` clears `actedThisRound` for
every seat but the raiser, and updates `minRaise` iff the full-raise target
was reached. -/
theorem applyValidated_raise (rt : TableRuntime) (seat : SeatRuntime)
    (amount : Option JNum) (rt' : TableRuntime)
    (h : applyValidated rt seat .RAISE amount = .ok rt') :
    (∀ s : Nat, rt'.actedThisRound s = (s == seat.seatNo)) ∧
    ((if rt.currentBet = 0 then rt.minRaise else rt.currentBet + rt.minRaise) ≤ rt'.currentBet →
      rt'.minRaise = rt'.currentBet - rt.currentBet) ∧
    (rt'.currentBet < (if rt.currentBet = 0 then rt.minRaise else rt.currentBet + rt.minRaise) →
      rt'.minRaise = rt.minRaise) := by
  simp only [applyValidated] at h
  split at h
  · simp at h
  split at h
  · simp at h
  split at h
  · simp at h
  split at h
  · -- clamped all-in raise
    split at h
    · simp at h
    obtain ⟨ha, hcb, hfull, hshort⟩ := finishRaise_shape _ _ _ _ _ _ h
    refine ⟨ha, fun hle => ?_, fun hlt => ?_⟩
    · rw [hcb] at hle ⊢; exact hfull hle
    · rw [hcb] at hlt; exact hshort hlt
  · -- raise within the stack
    obtain ⟨ha, hcb, hfull, hshort⟩ := finishRaise_shape _ _ _ _ _ _ h
    refine ⟨ha, fun hle => ?_, fun hlt => ?_⟩
    · rw [hcb] at hle ⊢; exact hfull hle
    · rw [hcb] at hlt; exact hshort hlt

/-- C4 as amended: whenever `applyTableAction`'s mutation phase applies a
RAISE successfully — full raise or short all-in alike — the resulting
`actedThisRound` record holds exactly for the raiser (the acting seat), i.e.
every other seat's flag is cleared; `minRaise` is updated to
`raiseTo − currentBet` iff the raise reached the full-raise target
`minTo = (currentBet == 0 ? minRaise : currentBet + minRaise)`. -/
theorem raise_clears_all_acted (rt : TableRuntime) (userId : String)
    (amount : Option JNum) (timeout : Bool) (rt' : TableRuntime)
    (h : applyMutation rt userId .RAISE amount timeout = .ok rt') :
    (∀ s : Nat, rt'.actedThisRound s = (s == rt.currentTurnSeat)) ∧
    ((if rt.currentBet = 0 then rt.minRaise else rt.currentBet + rt.minRaise) ≤ rt'.currentBet →
      rt'.minRaise = rt'.currentBet - rt.currentBet) ∧
    (rt'.currentBet < (if rt.currentBet = 0 then rt.minRaise else rt.currentBet + rt.minRaise) →
      rt'.minRaise = rt.minRaise) := by
  unfold applyMutation at h
  split at h
  · simp at h
  split at h
  · simp at h
  rename_i seat _
  split at h
  · simp at h
  split at h
  · simp at h
  rename_i hne
  have hturn : rt.currentTurnSeat = seat.seatNo := not_not.mp hne
  obtain ⟨ha, hfull, hshort⟩ := applyValidated_raise rt (timeoutsBumped timeout seat) amount rt' h
  exact ⟨fun s => by rw [hturn]; exact ha s, hfull, hshort⟩

/-- Witness for the amended C4 at the concrete short all-in: seat 2's flag is
cleared (the raiser is seat 1 = the acting seat) and `minRaise` is left at
20. -/
theorem raise_clears_all_acted_witness :
    rtC4'.actedThisRound 2 = (2 == rtC4.currentTurnSeat) ∧
    rtC4'.minRaise = rtC4.minRaise := by
  have H := raise_clears_all_acted rtC4 "u1" (some (.num 45)) false rtC4' rfl
  exact ⟨H.1 2, H.2.2 (by decide)⟩

/-! ## Claim C8 — the RAISE error conditions. -/

theorem exceptMap_error_iff {α β γ : Type} (f : α → β) (x : Except γ α) (e : γ) :
    Except.map f x = .error e ↔ x = .error e := by
  cases x <;> simp [Except.map]

/-- The RAISE validation of `applyValidated`, characterised: exactly which
inputs produce `INVALID_RAISE`, `INSUFFICIENT_STACK` and `RAISE_TOO_SMALL`. -/
theorem applyValidated_raise_errors (rt : TableRuntime) (seat : SeatRuntime)
    (amount : Option JNum) :
    (applyValidated rt seat .RAISE amount = .error .INVALID_RAISE ↔
      (jsAmount amount = .nonFinite ∨
       ∃ v : Int, jsAmount amount = .num v ∧ (v ≤ rt.currentBet ∨ v - seat.bet ≤ 0))) ∧
    (applyValidated rt seat .RAISE amount = .error .INSUFFICIENT_STACK ↔
      (∃ v : Int, jsAmount amount = .num v ∧ rt.currentBet < v ∧ 0 < v - seat.bet ∧
        seat.stack < v - seat.bet ∧ seat.bet + seat.stack ≤ rt.currentBet)) ∧
    (applyValidated rt seat .RAISE amount = .error .RAISE_TOO_SMALL ↔
      (∃ v : Int, jsAmount amount = .num v ∧ rt.currentBet < v ∧ 0 < v - seat.bet ∧
        v - seat.bet ≤ seat.stack ∧
        v < (if rt.currentBet = 0 then rt.minRaise else rt.currentBet + rt.minRaise) ∧
        v - seat.bet ≠ seat.stack)) := by
  have herr : ∀ (minTo raiseTo need : Int) (e : ActionError),
      finishRaise rt seat minTo raiseTo need = .error e ↔
        ((raiseTo < minTo ∧ need ≠ seat.stack) ∧ e = .RAISE_TOO_SMALL) := by
    intro minTo raiseTo need e
    unfold finishRaise
    split
    · rename_i hc; simp [hc, eq_comm]
    · rename_i hc; simp [hc]
  simp only [applyValidated]
  rcases hja : jsAmount amount with v | _
  · simp only [hja]
    refine ⟨?_, ?_, ?_⟩ <;> split_ifs <;> simp_all [herr] <;> omega
  · simp [hja]

/-- C8: with the preconditions of `applyTableAction` satisfied (a live seat
holding the turn, no board reveal running), a RAISE fails with
`INVALID_RAISE` iff the amount is non-finite, not strictly above
`currentBet`, or pays nothing (`raiseTo − bet ≤ 0`); with
`INSUFFICIENT_STACK` iff the needed chips exceed the stack and the clamped
all-in target `bet + stack` still does not exceed `currentBet`; and with
`RAISE_TOO_SMALL` iff the raise is affordable, below the full-raise target
`minTo = (currentBet == 0 ? minRaise : currentBet + minRaise)`, and not a
pure all-in. -/
theorem raise_error_conditions (now : Int) (rt : TableRuntime) (seat : SeatRuntime)
    (userId : String) (amount : Option JNum) (timeout : Bool)
    (hdeal : rt.isDealingBoard = false)
    (hfind : rt.players.find? (fun p => p.userId == userId) = some seat)
    (hnf : seat.hasFolded = false)
    (hturn : rt.currentTurnSeat = seat.seatNo) :
    (applyTableAction now rt userId .RAISE amount timeout = .error .INVALID_RAISE ↔
      (jsAmount amount = .nonFinite ∨
       ∃ v : Int, jsAmount amount = .num v ∧ (v ≤ rt.currentBet ∨ v - seat.bet ≤ 0))) ∧
    (applyTableAction now rt userId .RAISE amount timeout = .error .INSUFFICIENT_STACK ↔
      (∃ v : Int, jsAmount amount = .num v ∧ rt.currentBet < v ∧ 0 < v - seat.bet ∧
        seat.stack < v - seat.bet ∧ seat.bet + seat.stack ≤ rt.currentBet)) ∧
    (applyTableAction now rt userId .RAISE amount timeout = .error .RAISE_TOO_SMALL ↔
      (∃ v : Int, jsAmount amount = .num v ∧ rt.currentBet < v ∧ 0 < v - seat.bet ∧
        v - seat.bet ≤ seat.stack ∧
        v < (if rt.currentBet = 0 then rt.minRaise else rt.currentBet + rt.minRaise) ∧
        v - seat.bet ≠ seat.stack)) := by
  have hred : applyTableAction now rt userId .RAISE amount timeout
      = Except.map (applyPost now)
          (applyValidated rt (timeoutsBumped timeout seat) .RAISE amount) := by
    unfold applyTableAction applyMutation
    rw [if_neg (by simp [hdeal]), hfind]
    dsimp only
    rw [if_neg (by simp [hnf]), if_neg (fun hc => hc hturn)]
  rw [hred]
  simp only [exceptMap_error_iff]
  exact applyValidated_raise_errors rt (timeoutsBumped timeout seat) amount

/-- Witness for C8: at the concrete flop state `rtC4` (seat 1 to act with a
40 stack, `currentBet = 30`, `minRaise = 20`), a raise to 35 is affordable
but below the 50-chip full-raise target and not an all-in, so it fails with
`RAISE_TOO_SMALL`. -/
theorem raise_error_conditions_witness :
    applyTableAction 0 rtC4 "u1" .RAISE (some (.num 35)) false
      = .error .RAISE_TOO_SMALL :=
  (raise_error_conditions 0 rtC4 ⟨1, "u1", 40, 0, 10, false, false, 0⟩ "u1"
      (some (.num 35)) false rfl rfl rfl rfl).2.2.mpr ⟨35, by decide⟩

/-! ### C5 amended: heads-up dealer/SB acts first preflop; postflop the
first actor is the next actionable seat after the dealer (heads-up, the BB). -/

theorem setTurnDeadline_of_dealing (now : Int) (rt : TableRuntime)
    (h : rt.isDealingBoard = true) :
    setTurnDeadline now rt = { rt with turnEndsAt := none } := by
  unfold setTurnDeadline
  rw [if_pos (by simp [h])]

theorem roundNext_not_showdown (r : BettingRound) (h : roundNext r ≠ .SHOWDOWN) :
    roundNext r = .FLOP ∨ roundNext r = .TURN ∨ roundNext r = .RIVER := by
  cases r <;> simp_all [roundNext]

theorem advanceStreetCore_isDealing (rt0 : TableRuntime) (nxt : BettingRound)
    (h : nxt = .FLOP ∨ nxt = .TURN ∨ nxt = .RIVER) :
    (advanceStreetCore rt0 nxt).isDealingBoard = true := by
  unfold advanceStreetCore
  split
  · rfl
  · rename_i hh; exact absurd h hh

/-- The street advance leaves the turn at the first actionable seat after
the dealer (computed on its own resulting runtime). -/
theorem advanceStreetCore_turnSeat (rt0 : TableRuntime) (nxt : BettingRound) :
    (advanceStreetCore rt0 nxt).currentTurnSeat
      = nextActionableSeat (advanceStreetCore rt0 nxt) (advanceStreetCore rt0 nxt).dealerSeat := by
  unfold advanceStreetCore
  split
  · exact nextActionableSeat_congr rfl _
  · exact nextActionableSeat_congr rfl _

/-- C5 as amended: when a hand starts heads-up the dealer posts the small
blind and acts first preflop (`currentTurnSeat = dealerSeat`); on a settled
round that advances to a postflop street, the first actor is the next
actionable seat clockwise **after** the dealer — with two actionable seats
that is the non-dealer (the BB), not the dealer/SB. -/
theorem headsUp_order_amended :
    (∀ (seated : List SeatInput) (prevDealer : Option Nat) (smallBlind bigBlind : Int)
        (deck : List Card) (rt : TableRuntime),
        startHandRuntime seated prevDealer smallBlind bigBlind deck = some rt →
        seated.length = 2 → rt.currentTurnSeat = rt.dealerSeat) ∧
    (∀ (now : Int) (rt rt' : TableRuntime) (a b : Nat),
        applyPost now rt = .nextTurn rt' →
        isRoundSettled rt = true →
        roundNext rt.round ≠ .SHOWDOWN →
        actionableSeatNos rt' = [a, b] → a < b →
        rt'.dealerSeat = a ∨ rt'.dealerSeat = b →
        rt'.currentTurnSeat = (if rt'.dealerSeat = a then b else a)) := by
  constructor
  · intro seated prevDealer smallBlind bigBlind deck rt h hl
    unfold startHandRuntime at h
    rw [if_neg (by omega)] at h
    rw [Option.some.injEq] at h
    subst h
    simp [List.length_map, hl]
  · intro now rt rt' a b h hs hnx hseats hab hd
    unfold applyPost at h
    split at h
    · simp at h
    rw [if_pos hs, if_neg hnx] at h
    have hdeal : (advanceStreetCore rt (roundNext rt.round)).isDealingBoard = true :=
      advanceStreetCore_isDealing _ _ (roundNext_not_showdown _ hnx)
    rw [ApplyOutcome.nextTurn.injEq, setTurnDeadline_of_dealing now _ hdeal] at h
    have hT : rt'.currentTurnSeat
        = (advanceStreetCore rt (roundNext rt.round)).currentTurnSeat := by rw [← h]
    have hD : rt'.dealerSeat
        = (advanceStreetCore rt (roundNext rt.round)).dealerSeat := by rw [← h]
    have hP : rt'.players
        = (advanceStreetCore rt (roundNext rt.round)).players := by rw [← h]
    have hseatsA : actionableSeatNos (advanceStreetCore rt (roundNext rt.round)) = [a, b] := by
      rw [← hseats]
      simp only [actionableSeatNos, actionables, contenders, hP]
    rw [hT, advanceStreetCore_turnSeat, nextActionableSeat, hseatsA, ← hD]
    rcases hd with hd | hd
    · rw [hd, if_pos rfl]
      simp [nextSeatFrom, List.find?_cons, Nat.lt_irrefl, hab]
    · rw [hd, if_neg (by omega)]
      have h1 : ¬ b < a := by omega
      have h2 : ¬ b < b := by omega
      simp [nextSeatFrom, List.find?_cons, h1, h2]

/-- Witness for the amended C5: the concrete heads-up 5/10 hand start acts
first at the dealer; the concrete settled heads-up preflop advances to the
flop with seat 2 (the BB, with dealer seat 1) first to act. -/
theorem headsUp_order_amended_witness :
    rtC5s.currentTurnSeat = rtC5s.dealerSeat ∧
    rtC5f.currentTurnSeat = (if rtC5f.dealerSeat = 1 then 2 else 1) :=
  ⟨headsUp_order_amended.1 seatedC1 none 5 10 [] rtC5s rfl rfl,
   headsUp_order_amended.2 0 rtC5b rtC5f 1 2 rfl rfl (by decide) rfl (by decide) (Or.inl rfl)⟩

/-! ## Claim C2 — showdown side pots and the payout-sum invariant. -/

theorem insertIntAsc_perm (x : Int) (l : List Int) :
    List.Perm (insertIntAsc x l) (x :: l) := by
  induction l with
  | nil => exact List.Perm.refl _
  | cons y ys ih =>
    unfold insertIntAsc
    split
    · exact List.Perm.refl _
    · exact (List.Perm.cons y ih).trans (List.Perm.swap x y ys)

theorem sortInt_perm (l : List Int) : List.Perm (sortInt l) l := by
  induction l with
  | nil => exact List.Perm.refl _
  | cons x xs ih => exact (insertIntAsc_perm x (sortInt xs)).trans (List.Perm.cons x ih)

theorem mem_insertIntAsc {z x : Int} {l : List Int} :
    z ∈ insertIntAsc x l ↔ z = x ∨ z ∈ l := by
  rw [(insertIntAsc_perm x l).mem_iff, List.mem_cons]

theorem insertIntAsc_sorted (x : Int) (l : List Int) (h : l.Pairwise (· ≤ ·)) :
    (insertIntAsc x l).Pairwise (· ≤ ·) := by
  induction l with
  | nil => simp [insertIntAsc]
  | cons y ys ih =>
    rcases List.pairwise_cons.mp h with ⟨hy, hys⟩
    unfold insertIntAsc
    split
    · rename_i hxy
      refine List.pairwise_cons.mpr ⟨?_, h⟩
      intro z hz
      rcases List.mem_cons.mp hz with rfl | hz'
      · exact hxy
      · exact le_trans hxy (hy z hz')
    · rename_i hxy
      have hyx : y ≤ x := le_of_not_le hxy
      refine List.pairwise_cons.mpr ⟨?_, ih hys⟩
      intro z hz
      rcases mem_insertIntAsc.mp hz with rfl | hz'
      · exact hyx
      · exact hy z hz'

theorem sortInt_sorted (l : List Int) : (sortInt l).Pairwise (· ≤ ·) := by
  induction l with
  | nil => simp [sortInt]
  | cons x xs ih => exact insertIntAsc_sorted x (sortInt xs) ih

/-- The contribution levels are strictly increasing. -/
theorem showdownLevels_sorted_lt (players : List SeatRuntime) :
    (showdownLevels players).Pairwise (· < ·) := by
  have h1 := sortInt_sorted (((players.map contribOf).filter (fun v => 0 < v)).dedup)
  have h2 : (showdownLevels players).Nodup :=
    (sortInt_perm _).nodup_iff.mpr (List.nodup_dedup _)
  exact (h1.and h2).imp (fun h => lt_of_le_of_ne h.1 h.2)

/-- The contribution levels are exactly the positive contributions. -/
theorem mem_showdownLevels {players : List SeatRuntime} {x : Int} :
    x ∈ showdownLevels players ↔ 0 < x ∧ ∃ p ∈ players, contribOf p = x := by
  unfold showdownLevels
  rw [(sortInt_perm _).mem_iff, List.mem_dedup, List.mem_filter, List.mem_map]
  constructor
  · rintro ⟨⟨p, hp, rfl⟩, h0⟩
    exact ⟨by simpa using h0, p, hp, rfl⟩
  · rintro ⟨h0, p, hp, rfl⟩
    exact ⟨⟨p, hp, rfl⟩, by simpa using h0⟩

theorem stepSum_zero (c : Int) : ∀ (prev : Int) (ls : List Int),
    (∀ l ∈ ls, c < l) → stepSum c prev ls = 0 := by
  intro prev ls
  induction ls generalizing prev with
  | nil => intro _; rfl
  | cons l ls ih =>
    intro h
    have hl := h l (by simp)
    simp only [stepSum]
    rw [if_neg (by omega), ih l (fun x hx => h x (by simp [hx]))]
    simp

/-- Telescoping: a seat whose contribution is one of the levels pays exactly
`c − prev` across the walk. -/
theorem stepSum_telescope (c : Int) : ∀ (prev : Int) (ls : List Int),
    (prev :: ls).Pairwise (· < ·) → c ∈ ls → stepSum c prev ls = c - prev := by
  intro prev ls
  induction ls generalizing prev with
  | nil => intro _ h; simp at h
  | cons l ls ih =>
    intro hpw hc
    rcases List.pairwise_cons.mp hpw with ⟨hprev, hpw'⟩
    rcases List.pairwise_cons.mp hpw' with ⟨hl, _⟩
    rcases List.mem_cons.mp hc with rfl | hc'
    · simp only [stepSum]
      rw [if_pos le_rfl, stepSum_zero c c ls hl]
      ring
    · have hlc : l < c := hl c hc'
      simp only [stepSum]
      rw [if_pos (by omega), ih l hpw' hc']
      ring

theorem map_add_sum {α : Type} (l : List α) (f g : α → Int) :
    (l.map (fun p => f p + g p)).sum = (l.map f).sum + (l.map g).sum := by
  induction l with
  | nil => simp
  | cons q qs ih => simp only [List.map_cons, List.sum_cons, ih]; ring

theorem mul_filter_length (players : List SeatRuntime) (a : Int) (f : SeatRuntime → Bool) :
    a * ((players.filter f).length : Int)
      = (players.map (fun p => if f p then a else 0)).sum := by
  induction players with
  | nil => simp
  | cons q qs ih =>
    rw [List.filter_cons]
    split
    · rename_i hq
      simp only [List.length_cons, List.map_cons, List.sum_cons, if_pos hq]
      push_cast
      rw [← ih]; ring
    · rename_i hq
      simp only [List.map_cons, List.sum_cons, if_neg hq]
      rw [← ih]; ring

/-- The side-pot walk: total pot amounts telescope into per-seat `stepSum`s,
and no pot of the walk is dropped by the positivity filter. -/
theorem buildPots_amount_sum (players : List SeatRuntime) :
    ∀ (prev : Int) (ls : List Int), (prev :: ls).Pairwise (· < ·) →
    (∀ l ∈ ls, ∃ p ∈ players, contribOf p = l) →
    ((buildPots players prev ls).map (·.amount)).sum
        = (players.map (fun p => stepSum (contribOf p) prev ls)).sum ∧
    (buildPots players prev ls).length = ls.length := by
  intro prev ls
  induction ls generalizing prev with
  | nil => intro _ _; simp [buildPots, stepSum]
  | cons l ls ih =>
    intro hpw hwit
    rcases List.pairwise_cons.mp hpw with ⟨hprev, hpw'⟩
    have hl : prev < l := hprev l (by simp)
    obtain ⟨p₀, hp₀, hc₀⟩ := hwit l (by simp)
    have hp₀f : p₀ ∈ players.filter (fun p => decide (l ≤ contribOf p)) := by
      rw [List.mem_filter]
      exact ⟨hp₀, by simp [hc₀]⟩
    have hlen : 0 < (players.filter (fun p => decide (l ≤ contribOf p))).length :=
      List.length_pos_of_mem hp₀f
    have hamt : 0 < (l - prev) *
        ((players.filter (fun p => decide (l ≤ contribOf p))).length : Int) :=
      mul_pos (by omega) (by exact_mod_cast hlen)
    obtain ⟨ihs, ihl⟩ := ih l hpw' (fun x hx => hwit x (by simp [hx]))
    have hstep : (players.map (fun p => stepSum (contribOf p) prev (l :: ls))).sum
        = (players.map (fun p => if l ≤ contribOf p then l - prev else 0)).sum
          + (players.map (fun p => stepSum (contribOf p) l ls)).sum := by
      rw [← map_add_sum]
      simp only [stepSum]
    have hitesum : (players.map (fun p => if l ≤ contribOf p then l - prev else 0)).sum
        = (l - prev) * ((players.filter (fun p => decide (l ≤ contribOf p))).length : Int) := by
      rw [mul_filter_length players (l - prev) (fun p => decide (l ≤ contribOf p))]
      simp only [decide_eq_true_eq]
    simp only [buildPots]
    rw [if_pos hamt, List.singleton_append]
    constructor
    · simp only [List.map_cons, List.sum_cons]
      rw [ihs, hstep, hitesum]
    · simp [ihl]

theorem nat_contains_iff (l : List Nat) (a : Nat) : l.contains a = true ↔ a ∈ l := by
  rw [List.contains_iff_exists_mem_beq]
  simp

/-- Every pot of the walk records some level's non-folded contributors. -/
theorem buildPots_mem (players : List SeatRuntime) :
    ∀ (prev : Int) (ls : List Int) (pot : Pot), pot ∈ buildPots players prev ls →
    ∃ lvl ∈ ls, pot.eligibleSeats =
      ((players.filter (fun p => decide (lvl ≤ contribOf p))).filter
        (fun p => !p.hasFolded)).map (fun p => p.seatNo) := by
  intro prev ls
  induction ls generalizing prev with
  | nil => intro pot h; simp [buildPots] at h
  | cons l ls ih =>
    intro pot h
    simp only [buildPots] at h
    rcases List.mem_append.mp h with h1 | h2
    · split at h1
      · rcases List.mem_singleton.mp h1 with rfl
        exact ⟨l, by simp, rfl⟩
      · simp at h1
    · obtain ⟨lvl, hlvl, he⟩ := ih l pot h2
      exact ⟨lvl, by simp [hlvl], he⟩

theorem buildPots_amount_pos (players : List SeatRuntime) :
    ∀ (prev : Int) (ls : List Int) (pot : Pot), pot ∈ buildPots players prev ls →
    0 < pot.amount := by
  intro prev ls
  induction ls generalizing prev with
  | nil => intro pot h; simp [buildPots] at h
  | cons l ls ih =>
    intro pot h
    simp only [buildPots] at h
    rcases List.mem_append.mp h with h1 | h2
    · split at h1
      · rcases List.mem_singleton.mp h1 with rfl
        rename_i hpos
        exact hpos
      · simp at h1
    · exact ih l pot h2

/-- With a non-folded maximal contributor at the table, every pot has an
eligible seat carrying a hand value. -/
theorem showdownPots_elig_ne_nil (players : List SeatRuntime)
    (hmax : ∃ p ∈ players, p.hasFolded = false ∧ ∀ q ∈ players, q.committed ≤ p.committed) :
    ∀ pot ∈ showdownPots players,
      pot.eligibleSeats.filter (fun s => (activeSeatList players).contains s) ≠ [] := by
  obtain ⟨pm, hpm, hpmf, hpmax⟩ := hmax
  intro pot hpot
  obtain ⟨lvl, hlvl, he⟩ := buildPots_mem players 0 (showdownLevels players) pot hpot
  obtain ⟨hlpos, q, hq, hcq⟩ := mem_showdownLevels.mp hlvl
  have hple : lvl ≤ contribOf pm := by
    have h1 := hpmax q hq
    simp only [contribOf] at hcq ⊢
    omega
  have hmemElig : pm.seatNo ∈ pot.eligibleSeats := by
    rw [he]
    refine List.mem_map.mpr ⟨pm, ?_, rfl⟩
    rw [List.mem_filter, List.mem_filter]
    exact ⟨⟨hpm, by simp [hple]⟩, by simp [hpmf]⟩
  have hactive : (activeSeatList players).contains pm.seatNo = true := by
    rw [nat_contains_iff]
    exact List.mem_map.mpr ⟨pm, List.mem_filter.mpr ⟨hpm, by simp [hpmf]⟩, rfl⟩
  exact List.ne_nil_of_mem (List.mem_filter.mpr ⟨hmemElig, hactive⟩)

theorem bestFrom_le (value : Nat → Int) : ∀ (b : Int) (l : List Nat), b ≤ bestFrom value b l := by
  intro b l
  induction l generalizing b with
  | nil => simp [bestFrom]
  | cons s ss ih =>
    simp only [bestFrom]
    have h1 : b ≤ (if b < value s then value s else b) := by split <;> omega
    exact h1.trans (ih _)

theorem bestFrom_attained (value : Nat → Int) : ∀ (b : Int) (l : List Nat),
    bestFrom value b l = b ∨ ∃ s ∈ l, bestFrom value b l = value s := by
  intro b l
  induction l generalizing b with
  | nil => left; rfl
  | cons s ss ih =>
    simp only [bestFrom]
    rcases ih (if b < value s then value s else b) with h | ⟨t, ht, he⟩
    · rw [h]
      split
      · right; exact ⟨s, by simp, rfl⟩
      · left; rfl
    · right; exact ⟨t, by simp [ht], he⟩

theorem insertByDist_perm (d x : Nat) (l : List Nat) :
    List.Perm (insertByDist d x l) (x :: l) := by
  induction l with
  | nil => exact List.Perm.refl _
  | cons y ys ih =>
    unfold insertByDist
    split
    · exact List.Perm.refl _
    · exact (List.Perm.cons y ih).trans (List.Perm.swap x y ys)

theorem sortByLeftOfDealer_perm (d : Nat) (l : List Nat) :
    List.Perm (sortByLeftOfDealer d l) l := by
  induction l with
  | nil => exact List.Perm.refl _
  | cons x xs ih => exact (insertByDist_perm d x (sortByLeftOfDealer d xs)).trans (List.Perm.cons x ih)

/-- The odd-chip loop distributes exactly `base·|winners| + rem` chips. -/
theorem distribute_sum (base : Int) : ∀ (rem : Int) (ws : List Nat), 0 ≤ rem →
    rem ≤ (ws.length : Int) →
    ((distribute base rem ws).map (·.2)).sum = base * (ws.length : Int) + rem := by
  intro rem ws
  induction ws generalizing rem with
  | nil =>
    intro h1 h2
    simp only [List.length_nil, Nat.cast_zero] at h2
    simp [distribute]
    omega
  | cons s ss ih =>
    intro h1 h2
    simp only [distribute, List.map_cons, List.sum_cons]
    by_cases hr : 0 < rem
    · simp only [if_pos hr]
      rw [ih (rem - 1) (by omega) (by simp only [List.length_cons] at h2; push_cast at h2 ⊢; omega)]
      simp only [List.length_cons]
      push_cast
      ring
    · simp only [if_neg hr]
      have hr0 : rem = 0 := by omega
      rw [ih rem h1 (by simp only [List.length_cons] at h2; push_cast at h2 ⊢; omega)]
      subst hr0
      simp only [List.length_cons]
      push_cast
      ring

theorem distribute_fst (base : Int) : ∀ (rem : Int) (ws : List Nat) (e : Nat × Int),
    e ∈ distribute base rem ws → e.1 ∈ ws := by
  intro rem ws
  induction ws generalizing rem with
  | nil => intro e h; simp [distribute] at h
  | cons s ss ih =>
    intro e h
    simp only [distribute] at h
    rcases List.mem_cons.mp h with rfl | h'
    · simp
    · simp [ih _ e h']

theorem distribute_snd_nonneg (base : Int) (hb : 0 ≤ base) :
    ∀ (rem : Int) (ws : List Nat) (e : Nat × Int), e ∈ distribute base rem ws → 0 ≤ e.2 := by
  intro rem ws
  induction ws generalizing rem with
  | nil => intro e h; simp [distribute] at h
  | cons s ss ih =>
    intro e h
    simp only [distribute] at h
    rcases List.mem_cons.mp h with rfl | h'
    · simp only
      split <;> omega
    · exact ih _ e h'

/-- One pot's payouts sum to exactly the pot's amount whenever it has an
eligible seat with a value. -/
theorem potPayout_sum (dealer : Nat) (value : Nat → Int) (activeSeats : List Nat) (pot : Pot)
    (hne : pot.eligibleSeats.filter (fun s => activeSeats.contains s) ≠ []) :
    ((potPayout dealer value activeSeats pot).map (·.2)).sum = pot.amount := by
  simp only [potPayout]
  cases helig : pot.eligibleSeats.filter (fun s => activeSeats.contains s) with
  | nil => exact absurd helig hne
  | cons e es =>
    simp only [bestValue]
    have hatt : ∃ s ∈ e :: es, value s = bestFrom value (value e) es := by
      rcases bestFrom_attained value (value e) es with h | ⟨t, ht, he'⟩
      · exact ⟨e, by simp, h.symm⟩
      · exact ⟨t, by simp [ht], he'.symm⟩
    obtain ⟨s₀, hs₀, hvs₀⟩ := hatt
    have hs₀f : s₀ ∈ (e :: es).filter (fun s => value s == bestFrom value (value e) es) := by
      rw [List.mem_filter]
      exact ⟨hs₀, by simp [hvs₀]⟩
    have hws := sortByLeftOfDealer_perm dealer
      ((e :: es).filter (fun s => value s == bestFrom value (value e) es))
    have hwpos : 0 < ((sortByLeftOfDealer dealer
        ((e :: es).filter (fun s => value s == bestFrom value (value e) es))).length : Int) := by
      rw [hws.length_eq]
      exact_mod_cast List.length_pos_of_mem hs₀f
    set w := sortByLeftOfDealer dealer
      ((e :: es).filter (fun s => value s == bestFrom value (value e) es)) with hw
    have hne0 : (w.length : Int) ≠ 0 := by omega
    have hmodeq : pot.amount % (w.length : Int)
        = pot.amount - pot.amount / (w.length : Int) * (w.length : Int) := by
      rw [Int.emod_def]
      ring
    have hrem0 : 0 ≤ pot.amount - pot.amount / (w.length : Int) * (w.length : Int) := by
      rw [← hmodeq]
      exact Int.emod_nonneg pot.amount hne0
    have hremlt : pot.amount - pot.amount / (w.length : Int) * (w.length : Int)
        < (w.length : Int) := by
      rw [← hmodeq]
      exact Int.emod_lt_of_pos pot.amount hwpos
    rw [distribute_sum _ _ _ hrem0 (by omega)]
    ring

theorem flatMap_map_sum (pots : List Pot) (f : Pot → List (Nat × Int)) :
    ((pots.flatMap f).map (·.2)).sum = (pots.map (fun pot => ((f pot).map (·.2)).sum)).sum := by
  induction pots with
  | nil => rfl
  | cons pot ps ih => simp [List.flatMap_cons, ih]

theorem payoutOf_cons (e : Nat × Int) (es : List (Nat × Int)) (s : Nat) :
    payoutOf (e :: es) s = (if e.1 = s then e.2 else 0) + payoutOf es s := by
  simp only [payoutOf, List.filter_cons]
  split
  · rename_i h
    rw [if_pos (by simpa using h)]
    simp [payoutOf]
  · rename_i h
    rw [if_neg (by simpa using h)]
    simp [payoutOf]

theorem sum_ite_point (x : Nat) (v : Int) : ∀ (seats : List Nat), seats.Nodup → x ∈ seats →
    (seats.map (fun s => if x = s then v else 0)).sum = v := by
  intro seats
  induction seats with
  | nil => intro _ h; simp at h
  | cons t ts ih =>
    intro hnd hx
    rcases List.mem_cons.mp hx with rfl | hx'
    · simp only [List.map_cons, List.sum_cons, if_pos rfl]
      have hnot : x ∉ ts := (List.nodup_cons.mp hnd).1
      have hz : (ts.map (fun s => if x = s then v else 0)).sum = 0 := by
        apply List.sum_eq_zero
        intro y hy
        obtain ⟨s, hs, rfl⟩ := List.mem_map.mp hy
        rw [if_neg]
        rintro rfl
        exact hnot hs
      rw [hz]
      simp
    · have hnd' := (List.nodup_cons.mp hnd).2
      have hne : x ≠ t := by
        rintro rfl
        exact (List.nodup_cons.mp hnd).1 hx'
      simp only [List.map_cons, List.sum_cons, if_neg hne]
      rw [ih hnd' hx']
      ring

/-- Summing the per-seat accumulated payouts over the (distinct) seats gives
back the total of all payout entries. -/
theorem sum_payoutOf (seats : List Nat) (hnd : seats.Nodup) :
    ∀ (entries : List (Nat × Int)), (∀ e ∈ entries, e.1 ∈ seats) →
    (seats.map (payoutOf entries)).sum = (entries.map (·.2)).sum := by
  intro entries
  induction entries with
  | nil =>
    intro _
    have h : payoutOf ([] : List (Nat × Int)) = fun _ => (0 : Int) := rfl
    rw [h]
    simp
  | cons e es ih =>
    intro hmem
    have h1 : (seats.map (payoutOf (e :: es))).sum
        = (seats.map (fun s => if e.1 = s then e.2 else 0)).sum
          + (seats.map (payoutOf es)).sum := by
      rw [← map_add_sum]
      exact congrArg List.sum (List.map_congr_left (fun s _ => payoutOf_cons e es s))
    rw [h1, sum_ite_point e.1 e.2 seats hnd (hmem e (by simp)),
        ih (fun x hx => hmem x (by simp [hx]))]
    simp

theorem sum_filter_pos (f : Nat → Int) : ∀ (l : List Nat), (∀ s ∈ l, 0 ≤ f s) →
    ((l.filter (fun s => decide (0 < f s))).map f).sum = (l.map f).sum := by
  intro l
  induction l with
  | nil => intro _; rfl
  | cons s ls ih =>
    intro h
    rw [List.filter_cons]
    split
    · rename_i hs
      simp only [List.map_cons, List.sum_cons]
      rw [ih (fun x hx => h x (by simp [hx]))]
    · rename_i hs
      have h0 : f s = 0 := by
        have := h s (by simp)
        simp at hs
        omega
      simp only [List.map_cons, List.sum_cons]
      rw [ih (fun x hx => h x (by simp [hx])), h0]
      ring

theorem payoutOf_nonneg (entries : List (Nat × Int)) (h : ∀ e ∈ entries, 0 ≤ e.2) (s : Nat) :
    0 ≤ payoutOf entries s := by
  unfold payoutOf
  apply List.sum_nonneg
  intro x hx
  obtain ⟨e, he, rfl⟩ := List.mem_map.mp hx
  exact h e (List.mem_filter.mp he).1

theorem showdownEntries_nonneg (dealer : Nat) (value : Nat → Int) (players : List SeatRuntime) :
    ∀ e ∈ showdownEntries dealer value players, 0 ≤ e.2 := by
  intro e he
  obtain ⟨pot, hpot, hein⟩ := List.mem_flatMap.mp he
  have hpos : 0 < pot.amount := buildPots_amount_pos players 0 (showdownLevels players) pot hpot
  simp only [potPayout] at hein
  rcases hbv : bestValue value
      (pot.eligibleSeats.filter (fun s => (activeSeatList players).contains s)) with _ | best
  · rw [hbv] at hein
    exact absurd hein (by simp)
  · rw [hbv] at hein
    exact distribute_snd_nonneg _
      (Int.ediv_nonneg (le_of_lt hpos) (Nat.cast_nonneg _)) _ _ e hein

theorem showdownEntries_fst (dealer : Nat) (value : Nat → Int) (players : List SeatRuntime) :
    ∀ e ∈ showdownEntries dealer value players, e.1 ∈ players.map (fun p => p.seatNo) := by
  intro e he
  obtain ⟨pot, hpot, hein⟩ := List.mem_flatMap.mp he
  simp only [potPayout] at hein
  rcases hbv : bestValue value
      (pot.eligibleSeats.filter (fun s => (activeSeatList players).contains s)) with _ | best
  · rw [hbv] at hein
    exact absurd hein (by simp)
  · rw [hbv] at hein
    have h1 := distribute_fst _ _ _ e hein
    have h2 := (sortByLeftOfDealer_perm dealer _).mem_iff.mp h1
    have h3 := (List.mem_filter.mp h2).1
    have h4 := (List.mem_filter.mp h3).2
    have h5 := (nat_contains_iff _ _).mp h4
    obtain ⟨p, hp, hps⟩ := List.mem_map.mp h5
    exact List.mem_map.mpr ⟨p, (List.mem_filter.mp hp).1, hps⟩

/-- C2: `resolveShowdown` builds the side pots from the sorted distinct
positive committed values over all seats (folded included), one pot per
level (none is dropped: as many pots as levels, each of amount
`(lvl − prev) × |{seats with committed ≥ lvl}|` with the non-folded
contributors eligible, by `buildPots`), and — whenever the seat numbers are
distinct, contributions are non-negative, and some non-folded seat is a
maximal contributor (true of every runtime reaching showdown, since the last
aggression is never left uncalled above everyone) — the winners' payouts sum
to exactly the total committed chips. -/
theorem resolveShowdown_payout_sum (dealer : Nat) (value : Nat → Int)
    (players : List SeatRuntime)
    (hnodup : (players.map (fun p => p.seatNo)).Nodup)
    (hnn : ∀ p ∈ players, 0 ≤ p.committed)
    (hmax : ∃ p ∈ players, p.hasFolded = false ∧ ∀ q ∈ players, q.committed ≤ p.committed) :
    ((showdownWinners dealer value players).map (·.2)).sum
        = (players.map (fun p => p.committed)).sum ∧
    (showdownPots players).length = (showdownLevels players).length := by
  have hpw0 : ((0 : Int) :: showdownLevels players).Pairwise (· < ·) :=
    List.pairwise_cons.mpr
      ⟨fun l hl => (mem_showdownLevels.mp hl).1, showdownLevels_sorted_lt players⟩
  have hwit : ∀ l ∈ showdownLevels players, ∃ p ∈ players, contribOf p = l :=
    fun l hl => (mem_showdownLevels.mp hl).2
  obtain ⟨hsum, hlen⟩ := buildPots_amount_sum players 0 (showdownLevels players) hpw0 hwit
  have hstep : ∀ p ∈ players, stepSum (contribOf p) 0 (showdownLevels players) = contribOf p := by
    intro p hp
    by_cases hc : 0 < contribOf p
    · rw [stepSum_telescope _ 0 _ hpw0 (mem_showdownLevels.mpr ⟨hc, p, hp, rfl⟩)]
      ring
    · have hc0 : contribOf p = 0 := by simp only [contribOf] at hc ⊢; omega
      rw [hc0, stepSum_zero 0 0 _ (fun l hl => (mem_showdownLevels.mp hl).1)]
  have hpots : ((showdownPots players).map (·.amount)).sum = (players.map contribOf).sum := by
    unfold showdownPots
    rw [hsum]
    exact congrArg List.sum (List.map_congr_left hstep)
  have hcc : (players.map contribOf).sum = (players.map (fun p => p.committed)).sum := by
    refine congrArg List.sum (List.map_congr_left ?_)
    intro p hp
    have := hnn p hp
    simp only [contribOf]
    omega
  have hppot : ∀ pot ∈ showdownPots players,
      ((potPayout dealer value (activeSeatList players) pot).map (·.2)).sum = pot.amount :=
    fun pot hpot =>
      potPayout_sum dealer value _ pot (showdownPots_elig_ne_nil players hmax pot hpot)
  have hent : ((showdownEntries dealer value players).map (·.2)).sum
      = ((showdownPots players).map (·.amount)).sum := by
    unfold showdownEntries
    rw [flatMap_map_sum]
    exact congrArg List.sum (List.map_congr_left hppot)
  have hpnn : ∀ s, 0 ≤ payoutOf (showdownEntries dealer value players) s :=
    payoutOf_nonneg _ (showdownEntries_nonneg dealer value players)
  have hwsum : ((showdownWinners dealer value players).map (·.2)).sum
      = ((players.map (fun p => p.seatNo)).map
          (payoutOf (showdownEntries dealer value players))).sum := by
    simp only [showdownWinners, List.map_map]
    have hf := sum_filter_pos (payoutOf (showdownEntries dealer value players))
      (players.map (fun p => p.seatNo)) (fun s _ => hpnn s)
    simpa [Function.comp] using hf
  refine ⟨?_, ?_⟩
  · rw [hwsum, sum_payoutOf _ hnodup _ (showdownEntries_fst dealer value players), hent,
      hpots, hcc]
  · exact hlen

/-- Witness for C2: scenario S5 — committed 100/200/200, seats 2 and 3 tie —
pays out the full 500 committed chips, and both level pots (300 and 200)
survive. -/
theorem resolveShowdown_payout_sum_witness :
    ((showdownWinners 1 (fun s => if s == 1 then 1 else 5) playersC2).map (·.2)).sum
        = (playersC2.map (fun p => p.committed)).sum ∧
    (showdownPots playersC2).length = (showdownLevels playersC2).length :=
  resolveShowdown_payout_sum 1 (fun s => if s == 1 then 1 else 5) playersC2
    (by decide) (by decide)
    ⟨⟨2, "u2", 0, 0, 200, true, false, 0⟩, by decide, by decide, by decide⟩

/-! ## Claim C9 — the odd-chip wrap distance is hard-coded to 100. -/

theorem distribute_length (base rem : Int) (ws : List Nat) :
    (distribute base rem ws).length = ws.length := by
  induction ws generalizing rem with
  | nil => rfl
  | cons s ss ih => simp [distribute, ih]

/-- The odd-chip loop, characterised by position: the `i`-th winner in the
sorted order receives `base` plus one exactly when `i < rem`. -/
theorem distribute_get (base rem : Int) (ws : List Nat) (hrem : 0 ≤ rem)
    (i : Nat) (hi : i < ws.length) :
    (distribute base rem ws).get ⟨i, by rw [distribute_length]; exact hi⟩
      = (ws.get ⟨i, hi⟩, base + if (i : Int) < rem then 1 else 0) := by
  induction ws generalizing rem i with
  | nil => exact absurd hi (by simp)
  | cons s ss ih =>
    cases i with
    | zero =>
      simp only [distribute, List.get]
      norm_num
    | succ j =>
      have hj : j < ss.length := by simpa using hi
      have hrem' : 0 ≤ (if 0 < rem then rem - 1 else rem) := by split <;> omega
      have := ih (if 0 < rem then rem - 1 else rem) hrem' j hj
      simp only [distribute, List.get] at this ⊢
      rw [this]
      congr 2
      split_ifs <;> push_cast <;> omega

/-- The hard-coded 100-wrap distance and the table-size wrap distance order
seats identically on any table of at most 100 seats. -/
theorem dist_order_iff (n dealer a b : Nat) (ha1 : 1 ≤ a) (han : a ≤ n)
    (hb1 : 1 ≤ b) (hbn : b ≤ n) (hn : n ≤ 100) :
    (distFromDealer dealer a < distFromDealer dealer b ↔
     distFromDealerBySize n dealer a < distFromDealerBySize n dealer b) := by
  unfold distFromDealer distFromDealerBySize
  split_ifs <;> omega

/-- C9 as amended: each pot is split as `base = ⌊pot/w⌋` with the first
`rem` winners, in the code's left-of-dealer order, receiving one extra chip
(the `i`-th winner gets `base + (i < rem ? 1 : 0)`); the wrap distance of
`sortByLeftOfDealer` uses the hard-coded constant 100 rather than the table
size, but on any table of at most 100 seats this induces exactly the same
clockwise order, so the first odd chip still goes to the winner closest to
the dealer's left. -/
theorem oddChip_amended :
    (∀ (base rem : Int) (ws : List Nat) (i : Nat) (hi : i < ws.length), 0 ≤ rem →
      (distribute base rem ws).get ⟨i, by rw [distribute_length]; exact hi⟩
        = (ws.get ⟨i, hi⟩, base + if (i : Int) < rem then 1 else 0)) ∧
    (∀ n dealer a b : Nat, 1 ≤ a → a ≤ n → 1 ≤ b → b ≤ n → n ≤ 100 →
      (distFromDealer dealer a < distFromDealer dealer b ↔
       distFromDealerBySize n dealer a < distFromDealerBySize n dealer b)) :=
  ⟨fun base rem ws i hi h0 => distribute_get base rem ws h0 i hi,
   fun n dealer a b h1 h2 h3 h4 h5 => dist_order_iff n dealer a b h1 h2 h3 h4 h5⟩

/-- Witness for the amended C9: a $5 three-way pot (`base = 1`, `rem = 2`)
pays the first listed winner 2; and for a 9-seat table with the dealer at
seat 3, seats 2 and 5 compare identically under both wrap distances. -/
theorem oddChip_amended_witness :
    (distribute 1 2 [2, 3, 1]).get ⟨0, by decide⟩ = (2, 2) ∧
    (distFromDealer 3 2 < distFromDealer 3 5 ↔
     distFromDealerBySize 9 3 2 < distFromDealerBySize 9 3 5) :=
  ⟨oddChip_amended.1 1 2 [2, 3, 1] 0 (by decide) (by decide),
   oddChip_amended.2 9 3 2 5 (by decide) (by decide) (by decide) (by decide) (by decide)⟩

/-- Counterexample to C9's wrap clause: on a 9-seat table with the dealer at
seat 3, the source's `sortByLeftOfDealer` key gives seat 2 the distance
`2 + 100 − 3 = 99`, whereas the table-size wrap the claim describes gives
`2 + 9 − 3 = 8` — the wrap constant is the hard-coded 100, not the table
size. -/
theorem oddChip_wrap_constant_cex :
    distFromDealer 3 2 = 99 ∧ distFromDealerBySize 9 3 2 = 8 ∧
    distFromDealer 3 2 ≠ distFromDealerBySize 9 3 2 := by
  refine ⟨rfl, rfl, by decide⟩

end Poker
